import Mathlib

/-!
Verification of the episode-to-batch column assembler
(`AddColumnsFromEpisodesToTrainBatch.__call__` in
`rllib/connectors/learner/add_columns_from_episodes_to_train_batch.py`).

The batch is a mutable mapping from column name to a container of items;
we model it as an insertion-ordered association list.  Items in a column
are either raw per-timestep values (actions, rewards, extra model outputs)
or booleans (terminated/truncated flags), so a column holds a sum type.
Exceptions raised by the Python code (indexing errors, `in` applied to
`None`) are modelled by `Option`: `none` is an aborted call.
-/

/-- A single item stored in a batch column: either a raw per-timestep value
(action, reward, extra model output) or a boolean terminal flag. -/
inductive BatchItem (α : Type) where
  | v : α → BatchItem α
  | flag : Bool → BatchItem α
deriving DecidableEq

/-- A train batch: an insertion-ordered mapping from column name to the
list of items accumulated for that column (models the Python dict). -/
abbrev Batch (α : Type) := List (String × List (BatchItem α))

/-- First-match lookup in an association list (models Python dict access). -/
def alookup : List (String × β) → String → Option β
  | [], _ => none
  | p :: rest, k => if p.1 = k then some p.2 else alookup rest k

/-- Membership test on a list of strings (models Python `in` on a set). -/
def memStr (ks : List String) (c : String) : Bool :=
  ks.any (fun k => k = c)

/-- Key-membership test on the batch (models Python `column in batch`). -/
def hasCol (b : Batch α) (c : String) : Bool :=
  (alookup b c).isSome

/-- Modelled from the spec: the reserved column names of §6 of the spec
(the `Columns` constants of the repository are not under src/). -/
def Columns.ACTIONS : String := "actions"

/-- Modelled from the spec: reserved column name. -/
def Columns.REWARDS : String := "rewards"

/-- Modelled from the spec: reserved column name. -/
def Columns.TERMINATEDS : String := "terminateds"

/-- Modelled from the spec: reserved column name. -/
def Columns.TRUNCATEDS : String := "truncateds"

/-- Modelled from the spec: reserved recurrent-state column name, never
written by this stage. -/
def Columns.STATE_IN : String := "state_in"

/-- Modelled from the spec: reserved recurrent-state column name, never
written by this stage. -/
def Columns.STATE_OUT : String := "state_out"

/-- Modelled from the spec: a single-agent episode view (§3, §6 of the
spec; the episode class of the repository is not under src/).  It exposes a
`length`, episode-level terminal flags, per-timestep actions and rewards,
and a mapping from extra-output column names to per-timestep value lists. -/
structure SAEpisode (α : Type) where
  actions : List α
  rewards : List α
  is_terminated : Bool
  is_truncated : Bool
  extra_model_outputs : List (String × List α)
  length : Nat
deriving DecidableEq

/-- Modelled from the spec: indexed accessor for actions, defined for
`ts ∈ [0, length)`; out-of-range access is an error (`none`). -/
def SAEpisode.get_actions (ep : SAEpisode α) (ts : Nat) : Option α :=
  ep.actions[ts]?

/-- Modelled from the spec: indexed accessor for rewards. -/
def SAEpisode.get_rewards (ep : SAEpisode α) (ts : Nat) : Option α :=
  ep.rewards[ts]?

/-- Modelled from the spec: indexed per-key accessor for extra model
outputs; a missing key or an out-of-range index is an error (`none`). -/
def SAEpisode.get_extra_model_outputs (ep : SAEpisode α) (key : String) (ts : Nat) : Option α :=
  (alookup ep.extra_model_outputs key).bind (fun vs => vs[ts]?)

/-- Modelled from the spec: the all-agents iterator over an episode
collection (§6).  We take the collection to already be the deterministic
ordered sequence of single-agent episode views it yields; the flag selects
"agents that stepped only" and is always passed `false` by this stage. -/
def single_agent_episode_iterator (episodes : List (SAEpisode α)) (agents_that_stepped_only : Bool) : List (SAEpisode α) :=
  episodes

/-- Modelled from the spec: appending one item to a batch column, creating
the column on first use (§4.1 step 2b, §9). -/
def add_batch_item (b : Batch α) (column : String) (item : BatchItem α) : Batch α :=
  if hasCol b column then
    b.map (fun p => if p.1 = column then (p.1, p.2 ++ [item]) else p)
  else
    b ++ [(column, [item])]

/-- Modelled from the spec: appending `num_items` items to a batch column
in order; the item count must equal the episode length `num_items` exactly
(§4.1 step 2c: "reject otherwise"). -/
def add_n_batch_items (b : Batch α) (column : String) (items_to_add : List (BatchItem α)) (num_items : Nat) : Option (Batch α) :=
  if items_to_add.length = num_items then
    some (items_to_add.foldl (fun acc it => add_batch_item acc column it) b)
  else
    none

/-- Sequencing of a Python list comprehension whose element expressions may
raise: the first error aborts the whole list. -/
def sequenceOpt : List (Option β) → Option (List β)
  | [] => some []
  | o :: rest =>
    match o with
    | none => none
    | some x => (sequenceOpt rest).map (fun xs => x :: xs)

/-- The comprehension `[ep.get_actions(indices=ts) for ts in range(len(ep))]`. -/
def actionItems (ep : SAEpisode α) : Option (List (BatchItem α)) :=
  sequenceOpt ((List.range ep.length).map (fun ts => (ep.get_actions ts).map BatchItem.v))

/-- The comprehension `[ep.get_rewards(indices=ts) for ts in range(len(ep))]`. -/
def rewardItems (ep : SAEpisode α) : Option (List (BatchItem α)) :=
  sequenceOpt ((List.range ep.length).map (fun ts => (ep.get_rewards ts).map BatchItem.v))

/-- The expression `[False] * (len(ep) - 1) + [ep.is_terminated] if len(ep) > 0 else []`. -/
def terminatedItems (ep : SAEpisode α) : List (BatchItem α) :=
  if ep.length > 0 then
    List.replicate (ep.length - 1) (BatchItem.flag false) ++ [BatchItem.flag ep.is_terminated]
  else
    []

/-- The expression `[False] * (len(ep) - 1) + [ep.is_truncated] if len(ep) > 0 else []`. -/
def truncatedItems (ep : SAEpisode α) : List (BatchItem α) :=
  if ep.length > 0 then
    List.replicate (ep.length - 1) (BatchItem.flag false) ++ [BatchItem.flag ep.is_truncated]
  else
    []

/-- The comprehension `[ep.get_extra_model_outputs(key=column, indices=ts) for ts in range(len(ep))]`. -/
def extraItems (ep : SAEpisode α) (column : String) : Option (List (BatchItem α)) :=
  sequenceOpt ((List.range ep.length).map (fun ts => (ep.get_extra_model_outputs column ts).map BatchItem.v))

/-- One of the four per-column blocks of `__call__`: if the column is
already present, skip entirely; otherwise iterate the single-agent episode
views in order and append each one's item list. -/
def addPhase (column : String) (itemsOf : SAEpisode α → Option (List (BatchItem α))) (b : Batch α) (eps : List (SAEpisode α)) : Option (Batch α) :=
  if hasCol b column then some b
  else
    eps.foldlM
      (fun acc ep => (itemsOf ep).bind (fun items => add_n_batch_items acc column items ep.length))
      b

/-- The four main-column blocks of `__call__` in source order: actions,
rewards, terminateds, truncateds. -/
def addMainColumns (b : Batch α) (eps : List (SAEpisode α)) : Option (Batch α) :=
  (addPhase Columns.ACTIONS actionItems b eps).bind (fun b1 =>
  (addPhase Columns.REWARDS rewardItems b1 eps).bind (fun b2 =>
  (addPhase Columns.TERMINATEDS (fun ep => some (terminatedItems ep)) b2 eps).bind (fun b3 =>
  addPhase Columns.TRUNCATEDS (fun ep => some (truncatedItems ep)) b3 eps)))

/-- The expression `set(batch.keys()) | \x7bColumns.STATE_IN, Columns.STATE_OUT\x7d`
(membership-only use, so a list of names models the set). -/
def skipColumnsOf (b : Batch α) : List String :=
  b.map Prod.fst ++ [Columns.STATE_IN, Columns.STATE_OUT]

/-- The inner loop of the extra-output block: for each column name declared
in one episode's extra-model-outputs mapping, in order, append that
episode's per-timestep values unless the column is in the skip set. -/
def epExtraColumns (skip_columns : List String) (b : Batch α) (ep : SAEpisode α) : Option (Batch α) :=
  (ep.extra_model_outputs.map Prod.fst).foldlM
    (fun acc column =>
      if memStr skip_columns column then some acc
      else (extraItems ep column).bind (fun items => add_n_batch_items acc column items ep.length))
    b

/-- The extra-model-outputs block of `__call__`: the skip set is computed
once from the batch's keys at this point, then every episode's declared
extra-output columns are processed. -/
def addExtraPhase (b : Batch α) (eps : List (SAEpisode α)) : Option (Batch α) :=
  let skip_columns := skipColumnsOf b
  eps.foldlM (fun acc ep => epExtraColumns skip_columns acc ep) b

/-- The full `__call__` of `AddColumnsFromEpisodesToTrainBatch`.  A `none`
batch makes the very first membership test `Columns.ACTIONS not in batch`
raise a `TypeError` (modelled as `none`).  The `rl_module`, `explore`,
`shared_data` and `kwargs` parameters are bound but never read by the body. -/
def call (rl_module : ρ) (batch : Option (Batch α)) (episodes : List (SAEpisode α)) (explore : Option Bool) (shared_data : Option σ) (kwargs : κ) : Option (Batch α) :=
  match batch with
  | none => none
  | some b =>
    (addMainColumns b (single_agent_episode_iterator episodes false)).bind
      (fun b4 => addExtraPhase b4 (single_agent_episode_iterator episodes false))

/-- The skip set that the extra-output block of `__call__` actually uses on
a given input: the state of the batch after the four main-column blocks,
keyed, united with the two reserved state column names (source lines
76-149). -/
def call_skip_columns (b : Batch α) (episodes : List (SAEpisode α)) : Option (List String) :=
  (addMainColumns b (single_agent_episode_iterator episodes false)).map
    (fun b4 => skipColumnsOf b4)

/-- Column observation on a possibly-aborted call result. -/
def colOf (o : Option (Batch α)) (c : String) : Option (List (BatchItem α)) :=
  o.bind (fun b => alookup b c)

/-- Well-formedness of a single-agent episode view (§3, §7 of the spec):
the accessors can produce exactly `length` values for every field, and the
extra-model-outputs mapping is a dict (no duplicate keys). -/
def WF (ep : SAEpisode α) : Prop :=
  ep.actions.length = ep.length ∧
  ep.rewards.length = ep.length ∧
  (∀ p ∈ ep.extra_model_outputs, p.2.length = ep.length) ∧
  (ep.extra_model_outputs.map Prod.fst).Nodup

instance (ep : SAEpisode α) [DecidableEq α] : Decidable (WF ep) := by
  unfold WF
  infer_instance

/-! ### Derived value-level descriptions of the assembled columns
(used to state what the call produces) -/

/-! ### Derived value-level descriptions of the assembled columns -/

/-- Appending a (possibly empty) run of items to a column that may not
exist yet: an empty run leaves the column as it was (in particular it does
not create it); a nonempty run creates the column if needed. -/
def appendCol (o : Option (List β)) (items : List β) : Option (List β) :=
  if items.isEmpty then o else some (o.getD [] ++ items)

/-- The items the actions block extracts from one well-formed episode. -/
def actionVals (ep : SAEpisode α) : List (BatchItem α) :=
  ep.actions.map BatchItem.v

/-- The items the rewards block extracts from one well-formed episode. -/
def rewardVals (ep : SAEpisode α) : List (BatchItem α) :=
  ep.rewards.map BatchItem.v

/-- Whether an episode declares an extra-output column name. -/
def declares (ep : SAEpisode α) (c : String) : Bool :=
  (alookup ep.extra_model_outputs c).isSome

/-- The items the extra-output block extracts from one episode for one
declared column. -/
def extraVals (ep : SAEpisode α) (c : String) : List (BatchItem α) :=
  ((alookup ep.extra_model_outputs c).getD []).map BatchItem.v

/-- The full run of items the extra-output block appends to column `c`:
episodes are iterated in order and only declaring episodes contribute. -/
def extraJoin (eps : List (SAEpisode α)) (c : String) : List (BatchItem α) :=
  (eps.map (fun ep => if declares ep c then extraVals ep c else [])).flatten

/-- The pure effect of one per-column block when every episode's item list
is available: skip when the column pre-exists, otherwise append the
concatenation of all per-episode item lists. -/
def phaseResult (column : String) (items : List (BatchItem α)) (b : Batch α) : Batch α :=
  if hasCol b column then b
  else items.foldl (fun acc it => add_batch_item acc column it) b

/-- The pure effect of the four main-column blocks together. -/
def mainResult (b : Batch α) (eps : List (SAEpisode α)) : Batch α :=
  phaseResult Columns.TRUNCATEDS ((eps.map truncatedItems).flatten)
    (phaseResult Columns.TERMINATEDS ((eps.map terminatedItems).flatten)
      (phaseResult Columns.REWARDS ((eps.map rewardVals).flatten)
        (phaseResult Columns.ACTIONS ((eps.map actionVals).flatten) b)))

/-- The pure effect of the extra-output block for a single episode. -/
def epExtraResult (skip_columns : List String) (b : Batch α) (ep : SAEpisode α) : Batch α :=
  (ep.extra_model_outputs.map Prod.fst).foldl
    (fun acc column =>
      if memStr skip_columns column then acc
      else (extraVals ep column).foldl (fun a it => add_batch_item a column it) acc)
    b

/-- The pure effect of the whole extra-output block. -/
def extraPhaseResult (skip_columns : List String) (b : Batch α) (eps : List (SAEpisode α)) : Batch α :=
  eps.foldl (fun acc ep => epExtraResult skip_columns acc ep) b


/-- The six reserved column names of §6 of the spec. -/
def reservedColumns : List String :=
  [Columns.ACTIONS, Columns.REWARDS, Columns.TERMINATEDS, Columns.TRUNCATEDS,
    Columns.STATE_IN, Columns.STATE_OUT]

/-- Concrete episode: length 3, terminates normally, declares the
extra-output key "logp". -/
def exEp1 : SAEpisode Nat :=
  ⟨[10, 11, 12], [1, 2, 3], true, false, [("logp", [5, 6, 7])], 3⟩

/-- Concrete episode: length 2, truncated, declares no extra outputs. -/
def exEp2 : SAEpisode Nat :=
  ⟨[20, 21], [4, 5], false, true, [], 2⟩

/-- Concrete episode of length zero that still declares an extra-output
key and carries terminal flags. -/
def exEp0 : SAEpisode Nat :=
  ⟨[], [], true, true, [("w", [])], 0⟩

/-- Concrete episode whose extra-model-outputs mapping declares a key that
collides with the reserved column name "actions". -/
def exEpColl : SAEpisode Nat :=
  ⟨[3], [1], false, false, [("actions", [9])], 1⟩

/-- Concrete episode whose extra-model-outputs mapping declares the two
reserved state column names. -/
def exEpState : SAEpisode Nat :=
  ⟨[7], [2], false, false, [("state_in", [1]), ("state_out", [2])], 1⟩

/-- Concrete pre-populated batch. -/
def exBatch : Batch Nat :=
  [("rewards", [BatchItem.v 99]), ("foo", [])]

/-! ### Association-list lemmas -/

theorem alookup_append_left {l1 l2 : List (String × β)} {k : String} {v : β}
    (h : alookup l1 k = some v) : alookup (l1 ++ l2) k = some v := by
  induction l1 with
  | nil => simp [alookup] at h
  | cons p rest ih =>
    simp only [alookup, List.cons_append] at h ⊢
    split at h
    · simpa [*] using h
    · simp only [*, if_false]
      exact ih h

theorem alookup_append_right {l1 l2 : List (String × β)} {k : String}
    (h : alookup l1 k = none) : alookup (l1 ++ l2) k = alookup l2 k := by
  induction l1 with
  | nil => rfl
  | cons p rest ih =>
    simp only [alookup, List.cons_append] at h ⊢
    split at h
    · exact absurd h (by simp)
    · simp only [*, if_false]
      exact ih h

theorem alookup_mem {l : List (String × β)} {k : String} {v : β}
    (h : alookup l k = some v) : (k, v) ∈ l := by
  induction l with
  | nil => simp [alookup] at h
  | cons p rest ih =>
    simp only [alookup] at h
    split at h
    · rename_i heq
      have h2 := Option.some.inj h
      have hp : p = (k, v) := by
        cases p
        simp_all
      rw [← hp]
      exact List.mem_cons_self p rest
    · right
      exact ih h

theorem alookup_isSome_iff_mem_keys {l : List (String × β)} {k : String} :
    (alookup l k).isSome = true ↔ k ∈ l.map Prod.fst := by
  induction l with
  | nil => simp [alookup]
  | cons p rest ih =>
    simp only [alookup, List.map_cons, List.mem_cons]
    split
    · simp [*]
    · rw [ih]
      constructor
      · exact Or.inr
      · rintro (h | h)
        · exact absurd h.symm (by assumption)
        · exact h

theorem hasCol_iff_mem_keys {b : Batch α} {c : String} :
    hasCol b c = true ↔ c ∈ b.map Prod.fst :=
  alookup_isSome_iff_mem_keys

theorem memStr_iff {ks : List String} {c : String} :
    memStr ks c = true ↔ c ∈ ks := by
  simp only [memStr, List.any_eq_true, decide_eq_true_eq]
  constructor
  · rintro ⟨x, hx, rfl⟩; exact hx
  · intro h; exact ⟨c, h, rfl⟩

/-! ### appendCol lemmas -/

@[simp]
theorem appendCol_nil (o : Option (List β)) : appendCol o [] = o := rfl

theorem appendCol_singleton_run (o : Option (List β)) (x : β) (xs : List β) :
    appendCol o (x :: xs) = some (o.getD [] ++ x :: xs) := rfl

theorem appendCol_append (o : Option (List β)) (xs ys : List β) :
    appendCol (appendCol o xs) ys = appendCol o (xs ++ ys) := by
  cases xs with
  | nil => simp
  | cons x xs =>
    cases ys with
    | nil => simp [appendCol]
    | cons y ys => simp [appendCol, List.append_assoc]

/-! ### Lemmas about the append primitives -/

theorem alookup_map_update (b : Batch α) (c c' : String) (it : BatchItem α) :
    alookup (b.map (fun p => if p.1 = c then (p.1, p.2 ++ [it]) else p)) c' =
      if c' = c then (alookup b c).map (fun l => l ++ [it]) else alookup b c' := by
  induction b with
  | nil => simp [alookup]
  | cons p rest ih =>
    obtain ⟨k, vs⟩ := p
    by_cases hk : k = c <;> by_cases hc : c' = c <;> by_cases hkc : k = c' <;>
      simp_all [alookup]

theorem alookup_add_batch_item (b : Batch α) (c c' : String) (it : BatchItem α) :
    alookup (add_batch_item b c it) c' =
      if c' = c then some ((alookup b c).getD [] ++ [it]) else alookup b c' := by
  unfold add_batch_item
  by_cases hb : hasCol b c
  · rw [if_pos hb, alookup_map_update]
    rcases ho : alookup b c with _ | v
    · simp [hasCol, ho] at hb
    · simp [ho]
  · rw [if_neg hb]
    have hnone : alookup b c = none := by
      simp only [hasCol, Option.isSome_iff_exists] at hb
      push_neg at hb
      rcases ho : alookup b c with _ | v
      · rfl
      · exact absurd ho (hb v)
    by_cases hc : c' = c
    · subst hc
      rw [if_pos rfl, alookup_append_right hnone]
      simp [alookup, hnone]
    · rw [if_neg hc]
      rcases ho : alookup b c' with _ | v
      · rw [alookup_append_right ho]
        simp only [alookup]
        rw [if_neg (fun h : c = c' => hc h.symm)]
      · exact alookup_append_left ho

theorem alookup_foldl_add (items : List (BatchItem α)) (b : Batch α) (c c' : String) :
    alookup (items.foldl (fun acc it => add_batch_item acc c it) b) c' =
      if c' = c then appendCol (alookup b c) items else alookup b c' := by
  induction items generalizing b with
  | nil =>
    by_cases hc : c' = c <;> simp [hc]
  | cons it rest ih =>
    rw [List.foldl_cons, ih]
    by_cases hc : c' = c
    · subst hc
      rw [if_pos rfl, if_pos rfl, alookup_add_batch_item, if_pos rfl]
      have h1 : some ((alookup b c').getD [] ++ [it]) = appendCol (alookup b c') [it] := rfl
      rw [h1, appendCol_append]
      rfl
    · rw [if_neg hc, if_neg hc, alookup_add_batch_item, if_neg hc]

theorem add_n_batch_items_eq (b : Batch α) (c : String) (items : List (BatchItem α)) (n : Nat)
    (h : items.length = n) :
    add_n_batch_items b c items n =
      some (items.foldl (fun acc it => add_batch_item acc c it) b) := by
  simp [add_n_batch_items, h]

/-! ### Evaluation of the per-episode comprehensions -/

theorem sequenceOpt_range_map (l : List β) (g : β → γ) :
    sequenceOpt ((List.range l.length).map (fun ts => (l[ts]?).map g)) = some (l.map g) := by
  induction l with
  | nil => rfl
  | cons a l ih =>
    rw [List.length_cons, List.range_succ_eq_map, List.map_cons, List.map_map]
    have h1 : ((a :: l)[0]?).map g = some (g a) := by simp
    have h2 : ((fun ts => ((a :: l)[ts]?).map g) ∘ Nat.succ) = fun ts => (l[ts]?).map g := by
      funext ts
      simp [Function.comp, List.getElem?_cons_succ]
    rw [h1, h2]
    simp [sequenceOpt, ih]

theorem actionItems_of_wf {ep : SAEpisode α} (h : WF ep) :
    actionItems ep = some (actionVals ep) := by
  unfold actionItems actionVals SAEpisode.get_actions
  rw [← h.1]
  exact sequenceOpt_range_map ep.actions BatchItem.v

theorem rewardItems_of_wf {ep : SAEpisode α} (h : WF ep) :
    rewardItems ep = some (rewardVals ep) := by
  unfold rewardItems rewardVals SAEpisode.get_rewards
  rw [← h.2.1]
  exact sequenceOpt_range_map ep.rewards BatchItem.v

theorem extraItems_of_declared {ep : SAEpisode α} {c : String} {vs : List α}
    (h : alookup ep.extra_model_outputs c = some vs) (hlen : vs.length = ep.length) :
    extraItems ep c = some (vs.map BatchItem.v) := by
  unfold extraItems SAEpisode.get_extra_model_outputs
  rw [h]
  simp only [Option.some_bind]
  rw [← hlen]
  exact sequenceOpt_range_map vs BatchItem.v

theorem extraItems_of_wf {ep : SAEpisode α} {c : String} (hw : WF ep)
    (hd : declares ep c = true) :
    extraItems ep c = some (extraVals ep c) := by
  rcases Option.isSome_iff_exists.mp hd with ⟨vs, hvs⟩
  have hmem := alookup_mem hvs
  have hlen : vs.length = ep.length := hw.2.2.1 (c, vs) hmem
  rw [extraItems_of_declared hvs hlen]
  unfold extraVals
  rw [hvs]
  rfl

theorem length_actionVals {ep : SAEpisode α} (h : WF ep) :
    (actionVals ep).length = ep.length := by
  simp [actionVals, h.1]

theorem length_rewardVals {ep : SAEpisode α} (h : WF ep) :
    (rewardVals ep).length = ep.length := by
  simp [rewardVals, h.2.1]

theorem length_terminatedItems (ep : SAEpisode α) :
    (terminatedItems ep).length = ep.length := by
  unfold terminatedItems
  split
  · simp only [List.length_append, List.length_replicate, List.length_singleton]
    omega
  · simp only [List.length_nil]
    omega

theorem length_truncatedItems (ep : SAEpisode α) :
    (truncatedItems ep).length = ep.length := by
  unfold truncatedItems
  split
  · simp only [List.length_append, List.length_replicate, List.length_singleton]
    omega
  · simp only [List.length_nil]
    omega

theorem length_extraVals {ep : SAEpisode α} {c : String} (hw : WF ep)
    (hd : declares ep c = true) :
    (extraVals ep c).length = ep.length := by
  rcases Option.isSome_iff_exists.mp hd with ⟨vs, hvs⟩
  have hlen : vs.length = ep.length := hw.2.2.1 (c, vs) (alookup_mem hvs)
  simp [extraVals, hvs, hlen]

theorem extraItems_of_length_zero {ep : SAEpisode α} (h : ep.length = 0) (c : String) :
    extraItems ep c = some [] := by
  simp [extraItems, h, sequenceOpt]

theorem actionItems_of_length_zero {ep : SAEpisode α} (h : ep.length = 0) :
    actionItems ep = some [] := by
  simp [actionItems, h, sequenceOpt]

theorem rewardItems_of_length_zero {ep : SAEpisode α} (h : ep.length = 0) :
    rewardItems ep = some [] := by
  simp [rewardItems, h, sequenceOpt]

/-! ### Phase-level evaluation: each block reduces to a pure fold -/

theorem foldlM_phase_eq (column : String) (itemsOf : SAEpisode α → Option (List (BatchItem α)))
    (f : SAEpisode α → List (BatchItem α)) (eps : List (SAEpisode α)) (b : Batch α)
    (h : ∀ ep ∈ eps, itemsOf ep = some (f ep) ∧ (f ep).length = ep.length) :
    eps.foldlM
        (fun acc ep => (itemsOf ep).bind (fun items => add_n_batch_items acc column items ep.length))
        b =
      some (eps.foldl (fun acc ep => (f ep).foldl (fun a it => add_batch_item a column it) acc) b) := by
  induction eps generalizing b with
  | nil => rfl
  | cons e rest ih =>
    rw [List.foldlM_cons, List.foldl_cons]
    obtain ⟨he, hlen⟩ := h e (List.mem_cons_self e rest)
    rw [he]
    simp only [Option.bind_eq_bind, Option.some_bind]
    rw [add_n_batch_items_eq _ _ _ _ hlen]
    simp only [Option.bind_eq_bind, Option.some_bind]
    exact ih _ (fun ep hmem => h ep (List.mem_cons_of_mem _ hmem))

theorem foldl_add_flatten (column : String) (f : SAEpisode α → List (BatchItem α))
    (eps : List (SAEpisode α)) (b : Batch α) :
    eps.foldl (fun acc ep => (f ep).foldl (fun a it => add_batch_item a column it) acc) b =
      ((eps.map f).flatten).foldl (fun a it => add_batch_item a column it) b := by
  induction eps generalizing b with
  | nil => rfl
  | cons e rest ih =>
    rw [List.foldl_cons, List.map_cons, List.flatten_cons, List.foldl_append]
    exact ih _

theorem addPhase_eq (column : String) (itemsOf : SAEpisode α → Option (List (BatchItem α)))
    (f : SAEpisode α → List (BatchItem α)) (eps : List (SAEpisode α)) (b : Batch α)
    (h : ∀ ep ∈ eps, itemsOf ep = some (f ep) ∧ (f ep).length = ep.length) :
    addPhase column itemsOf b eps = some (phaseResult column ((eps.map f).flatten) b) := by
  unfold addPhase phaseResult
  by_cases hb : hasCol b column
  · rw [if_pos hb, if_pos hb]
  · rw [if_neg hb, if_neg hb, foldlM_phase_eq column itemsOf f eps b h,
      foldl_add_flatten]

theorem alookup_phaseResult (column : String) (items : List (BatchItem α)) (b : Batch α)
    (c : String) :
    alookup (phaseResult column items b) c =
      if c = column ∧ hasCol b column = false then appendCol (alookup b column) items
      else alookup b c := by
  unfold phaseResult
  by_cases hb : hasCol b column = true
  · rw [if_pos hb, if_neg (fun hp => by rw [hp.2] at hb; exact Bool.false_ne_true hb)]
  · rw [if_neg hb, alookup_foldl_add]
    by_cases hc : c = column
    · subst hc
      rw [if_pos rfl, if_pos ⟨rfl, Bool.not_eq_true _ ▸ hb⟩]
    · rw [if_neg hc, if_neg (fun hp => hc hp.1)]

theorem hasCol_phaseResult_ne (column : String) (items : List (BatchItem α)) (b : Batch α)
    (c : String) (h : c ≠ column) :
    hasCol (phaseResult column items b) c = hasCol b c := by
  unfold hasCol
  rw [alookup_phaseResult, if_neg (fun hp => h hp.1)]

theorem addMainColumns_of_wf {b : Batch α} {eps : List (SAEpisode α)}
    (h : ∀ ep ∈ eps, WF ep) :
    addMainColumns b eps = some (mainResult b eps) := by
  unfold addMainColumns mainResult
  rw [addPhase_eq Columns.ACTIONS actionItems actionVals eps b
      (fun ep hm => ⟨actionItems_of_wf (h ep hm), length_actionVals (h ep hm)⟩)]
  simp only [Option.some_bind]
  rw [addPhase_eq Columns.REWARDS rewardItems rewardVals eps _
      (fun ep hm => ⟨rewardItems_of_wf (h ep hm), length_rewardVals (h ep hm)⟩)]
  simp only [Option.some_bind]
  rw [addPhase_eq Columns.TERMINATEDS _ terminatedItems eps _
      (fun ep hm => ⟨rfl, length_terminatedItems ep⟩)]
  simp only [Option.some_bind]
  rw [addPhase_eq Columns.TRUNCATEDS _ truncatedItems eps _
      (fun ep hm => ⟨rfl, length_truncatedItems ep⟩)]

theorem alookup_eq_none_of_hasCol_false {b : Batch α} {c : String}
    (h : hasCol b c = false) : alookup b c = none := by
  unfold hasCol at h
  rcases ho : alookup b c with _ | v
  · rfl
  · rw [ho] at h
    simp at h

theorem alookup_phaseResult_ne (column : String) (items : List (BatchItem α)) (b : Batch α)
    (c : String) (h : c ≠ column) :
    alookup (phaseResult column items b) c = alookup b c := by
  rw [alookup_phaseResult, if_neg (fun hp => h hp.1)]

theorem alookup_phaseResult_of_hasCol (column : String) (items : List (BatchItem α))
    {b : Batch α} {c : String} (h : hasCol b c = true) :
    alookup (phaseResult column items b) c = alookup b c := by
  rw [alookup_phaseResult]
  by_cases hc : c = column
  · subst hc
    rw [if_neg (fun hp => by rw [h] at hp; simp at hp)]
  · rw [if_neg (fun hp => hc hp.1)]

theorem hasCol_phaseResult_of_hasCol (column : String) (items : List (BatchItem α))
    {b : Batch α} {c : String} (h : hasCol b c = true) :
    hasCol (phaseResult column items b) c = true := by
  unfold hasCol
  rw [alookup_phaseResult_of_hasCol column items h]
  exact h

theorem alookup_mainResult_of_ne {b : Batch α} {eps : List (SAEpisode α)} {c : String}
    (hA : c ≠ Columns.ACTIONS) (hR : c ≠ Columns.REWARDS)
    (hT : c ≠ Columns.TERMINATEDS) (hTr : c ≠ Columns.TRUNCATEDS) :
    alookup (mainResult b eps) c = alookup b c := by
  unfold mainResult
  rw [alookup_phaseResult_ne _ _ _ _ hTr, alookup_phaseResult_ne _ _ _ _ hT,
    alookup_phaseResult_ne _ _ _ _ hR, alookup_phaseResult_ne _ _ _ _ hA]

theorem alookup_mainResult_of_hasCol {b : Batch α} {eps : List (SAEpisode α)} {c : String}
    (h : hasCol b c = true) :
    alookup (mainResult b eps) c = alookup b c := by
  unfold mainResult
  rw [alookup_phaseResult_of_hasCol _ _
      (hasCol_phaseResult_of_hasCol _ _ (hasCol_phaseResult_of_hasCol _ _
        (hasCol_phaseResult_of_hasCol _ _ h))),
    alookup_phaseResult_of_hasCol _ _
      (hasCol_phaseResult_of_hasCol _ _ (hasCol_phaseResult_of_hasCol _ _ h)),
    alookup_phaseResult_of_hasCol _ _ (hasCol_phaseResult_of_hasCol _ _ h),
    alookup_phaseResult_of_hasCol _ _ h]

theorem hasCol_mainResult_of_hasCol {b : Batch α} {eps : List (SAEpisode α)} {c : String}
    (h : hasCol b c = true) :
    hasCol (mainResult b eps) c = true := by
  unfold hasCol
  rw [alookup_mainResult_of_hasCol h]
  exact h

theorem alookup_mainResult_actions {b : Batch α} {eps : List (SAEpisode α)}
    (h : hasCol b Columns.ACTIONS = false) :
    alookup (mainResult b eps) Columns.ACTIONS =
      appendCol none ((eps.map actionVals).flatten) := by
  unfold mainResult
  rw [alookup_phaseResult_ne _ _ _ _ (by decide), alookup_phaseResult_ne _ _ _ _ (by decide),
    alookup_phaseResult_ne _ _ _ _ (by decide), alookup_phaseResult,
    if_pos ⟨rfl, h⟩, alookup_eq_none_of_hasCol_false h]

theorem alookup_mainResult_rewards {b : Batch α} {eps : List (SAEpisode α)}
    (h : hasCol b Columns.REWARDS = false) :
    alookup (mainResult b eps) Columns.REWARDS =
      appendCol none ((eps.map rewardVals).flatten) := by
  unfold mainResult
  rw [alookup_phaseResult_ne _ _ _ _ (by decide), alookup_phaseResult_ne _ _ _ _ (by decide)]
  have h1 : hasCol (phaseResult Columns.ACTIONS ((eps.map actionVals).flatten) b)
      Columns.REWARDS = false := by
    unfold hasCol
    rw [alookup_phaseResult_ne _ _ _ _ (by decide)]
    exact h
  rw [alookup_phaseResult, if_pos ⟨rfl, h1⟩, alookup_eq_none_of_hasCol_false h1]

theorem alookup_mainResult_terminateds {b : Batch α} {eps : List (SAEpisode α)}
    (h : hasCol b Columns.TERMINATEDS = false) :
    alookup (mainResult b eps) Columns.TERMINATEDS =
      appendCol none ((eps.map terminatedItems).flatten) := by
  unfold mainResult
  rw [alookup_phaseResult_ne _ _ _ _ (by decide)]
  have h1 : hasCol (phaseResult Columns.REWARDS ((eps.map rewardVals).flatten)
      (phaseResult Columns.ACTIONS ((eps.map actionVals).flatten) b))
      Columns.TERMINATEDS = false := by
    unfold hasCol
    rw [alookup_phaseResult_ne _ _ _ _ (by decide), alookup_phaseResult_ne _ _ _ _ (by decide)]
    exact h
  rw [alookup_phaseResult, if_pos ⟨rfl, h1⟩, alookup_eq_none_of_hasCol_false h1]

theorem alookup_mainResult_truncateds {b : Batch α} {eps : List (SAEpisode α)}
    (h : hasCol b Columns.TRUNCATEDS = false) :
    alookup (mainResult b eps) Columns.TRUNCATEDS =
      appendCol none ((eps.map truncatedItems).flatten) := by
  unfold mainResult
  have h1 : hasCol (phaseResult Columns.TERMINATEDS ((eps.map terminatedItems).flatten)
      (phaseResult Columns.REWARDS ((eps.map rewardVals).flatten)
        (phaseResult Columns.ACTIONS ((eps.map actionVals).flatten) b)))
      Columns.TRUNCATEDS = false := by
    unfold hasCol
    rw [alookup_phaseResult_ne _ _ _ _ (by decide), alookup_phaseResult_ne _ _ _ _ (by decide),
      alookup_phaseResult_ne _ _ _ _ (by decide)]
    exact h
  rw [alookup_phaseResult, if_pos ⟨rfl, h1⟩, alookup_eq_none_of_hasCol_false h1]

/-! ### Extra-output block: evaluation and pointwise characterisation -/

theorem foldlM_extra_eq (skip : List String) (ep : SAEpisode α) (ks : List String)
    (b : Batch α)
    (h : ∀ k ∈ ks, extraItems ep k = some (extraVals ep k) ∧ (extraVals ep k).length = ep.length) :
    ks.foldlM
        (fun acc column =>
          if memStr skip column then some acc
          else (extraItems ep column).bind (fun items => add_n_batch_items acc column items ep.length))
        b =
      some (ks.foldl
        (fun acc column =>
          if memStr skip column then acc
          else (extraVals ep column).foldl (fun a it => add_batch_item a column it) acc)
        b) := by
  induction ks generalizing b with
  | nil => rfl
  | cons k ks ih =>
    rw [List.foldlM_cons, List.foldl_cons]
    by_cases hm : memStr skip k = true
    · rw [if_pos hm, if_pos hm]
      simp only [Option.bind_eq_bind, Option.some_bind]
      exact ih _ (fun k' hk' => h k' (List.mem_cons_of_mem _ hk'))
    · rw [if_neg hm, if_neg hm]
      obtain ⟨he, hlen⟩ := h k (List.mem_cons_self k ks)
      rw [he]
      simp only [Option.some_bind]
      rw [add_n_batch_items_eq _ _ _ _ hlen]
      simp only [Option.bind_eq_bind, Option.some_bind]
      exact ih _ (fun k' hk' => h k' (List.mem_cons_of_mem _ hk'))

theorem epExtraColumns_eq {ep : SAEpisode α} (skip : List String) (b : Batch α)
    (hw : WF ep) :
    epExtraColumns skip b ep = some (epExtraResult skip b ep) := by
  unfold epExtraColumns epExtraResult
  apply foldlM_extra_eq
  intro k hk
  have hd : declares ep k = true := by
    unfold declares
    exact alookup_isSome_iff_mem_keys.mpr hk
  exact ⟨extraItems_of_wf hw hd, length_extraVals hw hd⟩

theorem alookup_foldl_extra (skip : List String) (ep : SAEpisode α) (ks : List String)
    (b : Batch α) (c : String) (hnd : ks.Nodup) :
    alookup
        (ks.foldl
          (fun acc column =>
            if memStr skip column then acc
            else (extraVals ep column).foldl (fun a it => add_batch_item a column it) acc)
          b) c =
      if memStr skip c = false ∧ c ∈ ks then appendCol (alookup b c) (extraVals ep c)
      else alookup b c := by
  induction ks generalizing b with
  | nil =>
    rw [List.foldl_nil, if_neg (fun hp => List.not_mem_nil c hp.2)]
  | cons k ks ih =>
    rw [List.foldl_cons, List.nodup_cons] at *
    rw [ih _ hnd.2]
    by_cases hck : c = k
    · subst hck
      rw [if_neg (fun hp => hnd.1 hp.2)]
      by_cases hm : memStr skip c = true
      · rw [if_pos hm, if_neg (fun hp => by rw [hp.1] at hm; exact absurd hm (by decide))]
      · have hm' : memStr skip c = false := by
          rcases hb : memStr skip c with _ | _
          · rfl
          · exact absurd hb hm
        rw [if_neg hm, if_pos ⟨hm', List.mem_cons_self c ks⟩, alookup_foldl_add, if_pos rfl]
    · have hstep :
          alookup
            (if memStr skip k then b
             else (extraVals ep k).foldl (fun a it => add_batch_item a k it) b) c =
          alookup b c := by
        by_cases hm : memStr skip k = true
        · rw [if_pos hm]
        · rw [if_neg hm, alookup_foldl_add, if_neg hck]
      rw [hstep]
      have hiff : (memStr skip c = false ∧ c ∈ k :: ks) ↔ (memStr skip c = false ∧ c ∈ ks) := by
        simp [List.mem_cons, hck]
      rw [if_congr hiff rfl rfl]

theorem alookup_epExtraResult {ep : SAEpisode α} (skip : List String) (b : Batch α)
    (c : String) (hw : WF ep) :
    alookup (epExtraResult skip b ep) c =
      if memStr skip c = false ∧ declares ep c = true
      then appendCol (alookup b c) (extraVals ep c)
      else alookup b c := by
  unfold epExtraResult
  rw [alookup_foldl_extra skip ep _ b c hw.2.2.2]
  have hiff : (memStr skip c = false ∧ c ∈ ep.extra_model_outputs.map Prod.fst) ↔
      (memStr skip c = false ∧ declares ep c = true) := by
    unfold declares
    rw [alookup_isSome_iff_mem_keys]
  rw [if_congr hiff rfl rfl]

theorem foldlM_extraPhase_eq (skip : List String) {eps : List (SAEpisode α)} (b : Batch α)
    (h : ∀ ep ∈ eps, WF ep) :
    eps.foldlM (fun acc ep => epExtraColumns skip acc ep) b =
      some (extraPhaseResult skip b eps) := by
  induction eps generalizing b with
  | nil => rfl
  | cons e rest ih =>
    rw [List.foldlM_cons]
    rw [epExtraColumns_eq skip b (h e (List.mem_cons_self e rest))]
    simp only [Option.bind_eq_bind, Option.some_bind]
    exact ih _ (fun ep hm => h ep (List.mem_cons_of_mem _ hm))

theorem addExtraPhase_eq {b : Batch α} {eps : List (SAEpisode α)}
    (h : ∀ ep ∈ eps, WF ep) :
    addExtraPhase b eps = some (extraPhaseResult (skipColumnsOf b) b eps) := by
  unfold addExtraPhase
  exact foldlM_extraPhase_eq _ b h

theorem extraJoin_cons (e : SAEpisode α) (rest : List (SAEpisode α)) (c : String) :
    extraJoin (e :: rest) c =
      (if declares e c then extraVals e c else []) ++ extraJoin rest c := by
  simp [extraJoin]

theorem alookup_extraPhaseResult (skip : List String) {eps : List (SAEpisode α)}
    (b : Batch α) (c : String) (h : ∀ ep ∈ eps, WF ep) :
    alookup (extraPhaseResult skip b eps) c =
      if memStr skip c = false then appendCol (alookup b c) (extraJoin eps c)
      else alookup b c := by
  induction eps generalizing b with
  | nil =>
    have hj : extraJoin ([] : List (SAEpisode α)) c = [] := rfl
    rw [extraPhaseResult, List.foldl_nil, hj]
    by_cases hm : memStr skip c = false <;> simp [hm]
  | cons e rest ih =>
    rw [extraPhaseResult, List.foldl_cons]
    have hrest : alookup (extraPhaseResult skip (epExtraResult skip b e) rest) c =
        if memStr skip c = false then
          appendCol (alookup (epExtraResult skip b e) c) (extraJoin rest c)
        else alookup (epExtraResult skip b e) c :=
      ih _ (fun ep hm => h ep (List.mem_cons_of_mem _ hm))
    rw [extraPhaseResult] at hrest
    rw [hrest, alookup_epExtraResult skip b c (h e (List.mem_cons_self e rest)), extraJoin_cons]
    by_cases hm : memStr skip c = false
    · rw [if_pos hm, if_pos hm]
      by_cases hd : declares e c = true
      · rw [if_pos ⟨hm, hd⟩, if_pos hd, appendCol_append]
      · rw [if_neg (fun hp => hd hp.2), if_neg hd, List.nil_append]
    · rw [if_neg hm, if_neg hm, if_neg (fun hp => hm hp.1)]

/-! ### The skip set -/

theorem memStr_skipColumnsOf {b : Batch α} {c : String} :
    memStr (skipColumnsOf b) c = true ↔
      (hasCol b c = true ∨ c = Columns.STATE_IN ∨ c = Columns.STATE_OUT) := by
  rw [memStr_iff, skipColumnsOf, List.mem_append, hasCol_iff_mem_keys]
  simp [List.mem_cons]

theorem memStr_skipColumnsOf_eq_false {b : Batch α} {c : String}
    (h1 : hasCol b c = false) (h2 : c ≠ Columns.STATE_IN) (h3 : c ≠ Columns.STATE_OUT) :
    memStr (skipColumnsOf b) c = false := by
  rcases hm : memStr (skipColumnsOf b) c with _ | _
  · rfl
  · rcases memStr_skipColumnsOf.mp hm with hc | hc | hc
    · rw [h1] at hc
      exact absurd hc (by decide)
    · exact absurd hc h2
    · exact absurd hc h3

/-! ### The full call, evaluated -/

theorem call_eq_of_wf {b : Batch α} {eps : List (SAEpisode α)}
    (h : ∀ ep ∈ eps, WF ep) (rl : ρ) (ex : Option Bool) (sh : Option σ) (kw : κ) :
    call rl (some b) eps ex sh kw =
      some (extraPhaseResult (skipColumnsOf (mainResult b eps)) (mainResult b eps) eps) := by
  have hstep : call rl (some b) eps ex sh kw =
      (addMainColumns b eps).bind (fun b4 => addExtraPhase b4 eps) := rfl
  rw [hstep, addMainColumns_of_wf h]
  simp only [Option.some_bind]
  exact addExtraPhase_eq h

/-! ### Length and emptiness facts about the assembled runs -/

theorem getD_appendCol_none (l : List β) :
    (appendCol (none : Option (List β)) l).getD [] = l := by
  cases l <;> rfl

theorem appendCol_none_of_ne_nil {l : List β} (h : l ≠ []) :
    appendCol (none : Option (List β)) l = some l := by
  cases l with
  | nil => exact absurd rfl h
  | cons x xs => rfl

theorem appendCol_none_eq_none_iff {l : List β} :
    appendCol (none : Option (List β)) l = none ↔ l = [] := by
  cases l <;> simp [appendCol]

theorem flatten_length_eq_sum {eps : List (SAEpisode α)} {f : SAEpisode α → List (BatchItem α)}
    (h : ∀ ep ∈ eps, (f ep).length = ep.length) :
    ((eps.map f).flatten).length = (eps.map SAEpisode.length).sum := by
  rw [List.length_flatten, List.map_map]
  congr 1
  exact List.map_congr_left h

theorem flatten_ne_nil_of_pos {eps : List (SAEpisode α)} {f : SAEpisode α → List (BatchItem α)}
    (h : ∀ ep ∈ eps, (f ep).length = ep.length) (hne : ∃ ep ∈ eps, 0 < ep.length) :
    (eps.map f).flatten ≠ [] := by
  intro hnil
  have hlen : ((eps.map f).flatten).length = 0 := by rw [hnil]; rfl
  rw [flatten_length_eq_sum h] at hlen
  obtain ⟨ep, hm, hpos⟩ := hne
  have hle : ep.length ≤ (eps.map SAEpisode.length).sum :=
    List.single_le_sum (fun x _ => Nat.zero_le x) _ (List.mem_map_of_mem _ hm)
  omega

theorem extraJoin_length {eps : List (SAEpisode α)} {c : String}
    (h : ∀ ep ∈ eps, WF ep) :
    (extraJoin eps c).length =
      ((eps.filter (fun ep => declares ep c)).map SAEpisode.length).sum := by
  induction eps with
  | nil => rfl
  | cons e rest ih =>
    rw [extraJoin_cons, List.length_append, ih (fun ep hm => h ep (List.mem_cons_of_mem _ hm))]
    by_cases hd : declares e c = true
    · have hfil : List.filter (fun ep => declares ep c) (e :: rest) =
          e :: List.filter (fun ep => declares ep c) rest := by
        simp [List.filter_cons, hd]
      rw [if_pos hd, hfil, List.map_cons, List.sum_cons,
        length_extraVals (h e (List.mem_cons_self e rest)) hd]
    · have hfil : List.filter (fun ep => declares ep c) (e :: rest) =
          List.filter (fun ep => declares ep c) rest := by
        simp [List.filter_cons, hd]
      rw [if_neg hd, hfil, List.length_nil, Nat.zero_add]

theorem extraJoin_eq_nil_of_sum_zero {eps : List (SAEpisode α)} {c : String}
    (h : ∀ ep ∈ eps, WF ep) (hz : (eps.map SAEpisode.length).sum = 0) :
    extraJoin eps c = [] := by
  have hall : ∀ ep ∈ eps, ep.length = 0 := by
    intro ep hm
    have := List.sum_eq_zero_iff.mp hz
    exact this ep.length (List.mem_map_of_mem _ hm)
  have hlen : (extraJoin eps c).length = 0 := by
    rw [extraJoin_length h]
    apply List.sum_eq_zero_iff.mpr
    intro x hx
    rcases List.mem_map.mp hx with ⟨ep, hme, rfl⟩
    exact hall ep (List.mem_of_mem_filter hme)
  exact List.eq_nil_of_length_eq_zero hlen

/-! ### What the call leaves in a freshly assembled column -/

theorem colOf_some (b : Batch α) (c : String) : colOf (some b) c = alookup b c := rfl

theorem main_fresh_col {b : Batch α} {eps : List (SAEpisode α)}
    (hwf : ∀ ep ∈ eps, WF ep) {X : String} {f : SAEpisode α → List (BatchItem α)}
    (hlen : ∀ ep ∈ eps, (f ep).length = ep.length)
    (hX : alookup (mainResult b eps) X = appendCol none ((eps.map f).flatten))
    (h1 : X ≠ Columns.STATE_IN) (h2 : X ≠ Columns.STATE_OUT) :
    alookup (extraPhaseResult (skipColumnsOf (mainResult b eps)) (mainResult b eps) eps) X =
      appendCol none ((eps.map f).flatten) := by
  rw [alookup_extraPhaseResult _ _ _ hwf]
  by_cases hm : memStr (skipColumnsOf (mainResult b eps)) X = false
  · rw [if_pos hm, hX]
    have hh : hasCol (mainResult b eps) X = false := by
      rcases hc : hasCol (mainResult b eps) X with _ | _
      · rfl
      · have := memStr_skipColumnsOf.mpr (Or.inl hc)
        rw [hm] at this
        exact absurd this (by decide)
    have hnil : (eps.map f).flatten = [] := by
      apply appendCol_none_eq_none_iff.mp
      rw [← hX]
      exact alookup_eq_none_of_hasCol_false hh
    have hsum : (eps.map SAEpisode.length).sum = 0 := by
      rw [← flatten_length_eq_sum hlen, hnil]
      rfl
    rw [hnil, extraJoin_eq_nil_of_sum_zero hwf hsum]
    simp
  · rw [if_neg hm]
    exact hX

theorem extras_fresh_col {b : Batch α} {eps : List (SAEpisode α)} {c : String}
    (hwf : ∀ ep ∈ eps, WF ep) (hb : hasCol b c = false) (hres : c ∉ reservedColumns) :
    alookup (extraPhaseResult (skipColumnsOf (mainResult b eps)) (mainResult b eps) eps) c =
      appendCol none (extraJoin eps c) := by
  have hne : c ≠ Columns.ACTIONS ∧ c ≠ Columns.REWARDS ∧ c ≠ Columns.TERMINATEDS ∧
      c ≠ Columns.TRUNCATEDS ∧ c ≠ Columns.STATE_IN ∧ c ≠ Columns.STATE_OUT := by
    simp only [reservedColumns, List.mem_cons, List.not_mem_nil, or_false, not_or] at hres
    exact ⟨hres.1, hres.2.1, hres.2.2.1, hres.2.2.2.1, hres.2.2.2.2.1, hres.2.2.2.2.2⟩
  have hmainc : alookup (mainResult b eps) c = none := by
    rw [alookup_mainResult_of_ne hne.1 hne.2.1 hne.2.2.1 hne.2.2.2.1]
    exact alookup_eq_none_of_hasCol_false hb
  have hmaincol : hasCol (mainResult b eps) c = false := by
    unfold hasCol
    rw [hmainc]
    rfl
  have hm : memStr (skipColumnsOf (mainResult b eps)) c = false :=
    memStr_skipColumnsOf_eq_false hmaincol hne.2.2.2.2.1 hne.2.2.2.2.2
  rw [alookup_extraPhaseResult _ _ _ hwf, if_pos hm, hmainc]

/-! ### A length-zero episode is a no-op for every block -/

theorem foldlM_middle_id {β : Type} (f : β → SAEpisode α → Option β) (ep : SAEpisode α)
    (hid : ∀ acc, f acc ep = some acc) (es1 es2 : List (SAEpisode α)) (b : β) :
    (es1 ++ ep :: es2).foldlM f b = (es1 ++ es2).foldlM f b := by
  induction es1 generalizing b with
  | nil =>
    rw [List.nil_append, List.nil_append, List.foldlM_cons, hid b]
    simp only [Option.bind_eq_bind, Option.some_bind]
  | cons e rest ih =>
    rw [List.cons_append, List.cons_append, List.foldlM_cons, List.foldlM_cons]
    cases hfe : f b e with
    | none => simp only [Option.bind_eq_bind, Option.none_bind]
    | some b2 =>
      simp only [Option.bind_eq_bind, Option.some_bind]
      exact ih b2

theorem add_n_batch_items_nil_of_length_zero {ep : SAEpisode α} (h : ep.length = 0)
    (acc : Batch α) (column : String) :
    add_n_batch_items acc column [] ep.length = some acc := by
  rw [h]
  rfl

theorem terminatedItems_of_length_zero {ep : SAEpisode α} (h : ep.length = 0) :
    terminatedItems ep = [] := by
  simp [terminatedItems, h]

theorem truncatedItems_of_length_zero {ep : SAEpisode α} (h : ep.length = 0) :
    truncatedItems ep = [] := by
  simp [truncatedItems, h]

theorem epExtraColumns_of_length_zero {ep : SAEpisode α} (h : ep.length = 0)
    (skip : List String) (b : Batch α) :
    epExtraColumns skip b ep = some b := by
  unfold epExtraColumns
  generalize ep.extra_model_outputs.map Prod.fst = ks
  induction ks generalizing b with
  | nil => rfl
  | cons k ks ih =>
    rw [List.foldlM_cons]
    by_cases hm : memStr skip k = true
    · rw [if_pos hm]
      simp only [Option.bind_eq_bind, Option.some_bind]
      exact ih b
    · rw [if_neg hm, extraItems_of_length_zero h k]
      simp only [Option.some_bind]
      rw [add_n_batch_items_nil_of_length_zero h]
      simp only [Option.bind_eq_bind, Option.some_bind]
      exact ih b

theorem addPhase_middle_id (column : String)
    (itemsOf : SAEpisode α → Option (List (BatchItem α))) {ep : SAEpisode α}
    (hid : ∀ acc : Batch α,
      (itemsOf ep).bind (fun items => add_n_batch_items acc column items ep.length) = some acc)
    (b : Batch α) (es1 es2 : List (SAEpisode α)) :
    addPhase column itemsOf b (es1 ++ ep :: es2) = addPhase column itemsOf b (es1 ++ es2) := by
  unfold addPhase
  by_cases hb : hasCol b column = true
  · rw [if_pos hb, if_pos hb]
  · rw [if_neg hb, if_neg hb]
    exact foldlM_middle_id _ ep hid es1 es2 b

theorem addMainColumns_middle_id {ep : SAEpisode α} (h : ep.length = 0)
    (b : Batch α) (es1 es2 : List (SAEpisode α)) :
    addMainColumns b (es1 ++ ep :: es2) = addMainColumns b (es1 ++ es2) := by
  have hidA : ∀ acc : Batch α,
      (actionItems ep).bind (fun items => add_n_batch_items acc Columns.ACTIONS items ep.length) =
        some acc := by
    intro acc
    rw [actionItems_of_length_zero h]
    simp only [Option.some_bind]
    exact add_n_batch_items_nil_of_length_zero h acc _
  have hidR : ∀ acc : Batch α,
      (rewardItems ep).bind (fun items => add_n_batch_items acc Columns.REWARDS items ep.length) =
        some acc := by
    intro acc
    rw [rewardItems_of_length_zero h]
    simp only [Option.some_bind]
    exact add_n_batch_items_nil_of_length_zero h acc _
  have hidT : ∀ acc : Batch α,
      (some (terminatedItems ep)).bind
        (fun items => add_n_batch_items acc Columns.TERMINATEDS items ep.length) = some acc := by
    intro acc
    rw [terminatedItems_of_length_zero h]
    simp only [Option.some_bind]
    exact add_n_batch_items_nil_of_length_zero h acc _
  have hidTr : ∀ acc : Batch α,
      (some (truncatedItems ep)).bind
        (fun items => add_n_batch_items acc Columns.TRUNCATEDS items ep.length) = some acc := by
    intro acc
    rw [truncatedItems_of_length_zero h]
    simp only [Option.some_bind]
    exact add_n_batch_items_nil_of_length_zero h acc _
  unfold addMainColumns
  rw [addPhase_middle_id Columns.ACTIONS actionItems hidA]
  refine congrArg _ (funext fun b1 => ?_)
  rw [addPhase_middle_id Columns.REWARDS rewardItems hidR]
  refine congrArg _ (funext fun b2 => ?_)
  rw [addPhase_middle_id Columns.TERMINATEDS _ hidT]
  refine congrArg _ (funext fun b3 => ?_)
  rw [addPhase_middle_id Columns.TRUNCATEDS _ hidTr]

theorem addExtraPhase_middle_id {ep : SAEpisode α} (h : ep.length = 0)
    (b : Batch α) (es1 es2 : List (SAEpisode α)) :
    addExtraPhase b (es1 ++ ep :: es2) = addExtraPhase b (es1 ++ es2) := by
  unfold addExtraPhase
  exact foldlM_middle_id _ ep (fun acc => epExtraColumns_of_length_zero h _ acc) es1 es2 b

/-! ## The claims -/

/-- C3: the call returns the given batch mapping augmented, never removing
or overwriting an existing key: every column name already present in the
input batch has identical contents (hence identical length) in the
returned batch. -/
theorem C3_pass_through {α ρ σ κ : Type} (rl : ρ) (b : Batch α) (eps : List (SAEpisode α))
    (ex : Option Bool) (sh : Option σ) (kw : κ) (hwf : ∀ ep ∈ eps, WF ep)
    (c : String) (hc : hasCol b c = true) :
    colOf (call rl (some b) eps ex sh kw) c = alookup b c := by
  rw [call_eq_of_wf hwf rl ex sh kw, colOf_some]
  rw [alookup_extraPhaseResult _ _ _ hwf]
  have hmain : hasCol (mainResult b eps) c = true := hasCol_mainResult_of_hasCol hc
  have hm : memStr (skipColumnsOf (mainResult b eps)) c = true :=
    memStr_skipColumnsOf.mpr (Or.inl hmain)
  rw [if_neg (fun hp => by rw [hp] at hm; exact absurd hm (by decide))]
  exact alookup_mainResult_of_hasCol hc

/-- Witness for C3: a pre-populated rewards column and an unknown column
survive the call unchanged on a concrete input. -/
theorem C3_pass_through_witness :
    ((∀ ep ∈ [exEp1, exEp2], WF ep) ∧ hasCol exBatch Columns.REWARDS = true) ∧
    colOf (call (0 : Nat) (some exBatch) [exEp1, exEp2] none (none : Option Nat) (0 : Nat))
        Columns.REWARDS =
      alookup exBatch Columns.REWARDS :=
  ⟨⟨by decide, by decide⟩,
    C3_pass_through (0 : Nat) exBatch [exEp1, exEp2] none (none : Option Nat) (0 : Nat)
      (by decide) Columns.REWARDS (by decide)⟩

/-- C5: the call never creates, writes, or modifies the columns `state_in`
and `state_out`, even when an episode's extra-model-outputs mapping
declares one of those two names. -/
theorem C5_state_columns_untouched {α ρ σ κ : Type} (rl : ρ) (b : Batch α)
    (eps : List (SAEpisode α)) (ex : Option Bool) (sh : Option σ) (kw : κ)
    (hwf : ∀ ep ∈ eps, WF ep) :
    (call rl (some b) eps ex sh kw).isSome = true ∧
    colOf (call rl (some b) eps ex sh kw) Columns.STATE_IN = alookup b Columns.STATE_IN ∧
    colOf (call rl (some b) eps ex sh kw) Columns.STATE_OUT = alookup b Columns.STATE_OUT := by
  rw [call_eq_of_wf hwf rl ex sh kw]
  refine ⟨rfl, ?_, ?_⟩
  · rw [colOf_some, alookup_extraPhaseResult _ _ _ hwf]
    have hm : memStr (skipColumnsOf (mainResult b eps)) Columns.STATE_IN = true :=
      memStr_skipColumnsOf.mpr (Or.inr (Or.inl rfl))
    rw [if_neg (fun hp => by rw [hp] at hm; exact absurd hm (by decide))]
    exact alookup_mainResult_of_ne (by decide) (by decide) (by decide) (by decide)
  · rw [colOf_some, alookup_extraPhaseResult _ _ _ hwf]
    have hm : memStr (skipColumnsOf (mainResult b eps)) Columns.STATE_OUT = true :=
      memStr_skipColumnsOf.mpr (Or.inr (Or.inr rfl))
    rw [if_neg (fun hp => by rw [hp] at hm; exact absurd hm (by decide))]
    exact alookup_mainResult_of_ne (by decide) (by decide) (by decide) (by decide)

/-- Witness for C5 at a concrete input whose episode declares `state_in`
and `state_out` as extra-output keys. -/
theorem C5_state_columns_untouched_witness :
    (∀ ep ∈ [exEpState], WF ep) ∧
    ((call (0 : Nat) (some ([] : Batch Nat)) [exEpState] none (none : Option Nat) (0 : Nat)).isSome = true ∧
      colOf (call (0 : Nat) (some ([] : Batch Nat)) [exEpState] none (none : Option Nat) (0 : Nat))
          Columns.STATE_IN =
        alookup ([] : Batch Nat) Columns.STATE_IN ∧
      colOf (call (0 : Nat) (some ([] : Batch Nat)) [exEpState] none (none : Option Nat) (0 : Nat))
          Columns.STATE_OUT =
        alookup ([] : Batch Nat) Columns.STATE_OUT) :=
  ⟨by decide,
    C5_state_columns_untouched (0 : Nat) ([] : Batch Nat) [exEpState] none (none : Option Nat)
      (0 : Nat) (by decide)⟩

/-- C8: with a `None` batch, the membership test `Columns.ACTIONS not in
batch` raises a `TypeError`; the call aborts instead of treating the absent
batch as an empty mapping. -/
theorem C8_none_batch_fails {α ρ σ κ : Type} (rl : ρ) (eps : List (SAEpisode α))
    (ex : Option Bool) (sh : Option σ) (kw : κ) :
    call rl (none : Option (Batch α)) eps ex sh kw = none := rfl

/-- C9: the exploration flag, the shared-data mapping, and the keyword
extension parameters never influence the output of the call. -/
theorem C9_context_ignored {α ρ σ κ : Type} (rl : ρ) (batch : Option (Batch α))
    (eps : List (SAEpisode α)) (e1 e2 : Option Bool) (s1 s2 : Option σ) (k1 k2 : κ) :
    call rl batch eps e1 s1 k1 = call rl batch eps e2 s2 k2 := rfl

/-- C10: the required `rl_module` parameter is never read, so two calls
differing only in it return identical batches. -/
theorem C10_rl_module_ignored {α ρ τ σ κ : Type} (r1 : ρ) (r2 : τ) (batch : Option (Batch α))
    (eps : List (SAEpisode α)) (ex : Option Bool) (sh : Option σ) (kw : κ) :
    call r1 batch eps ex sh kw = call r2 batch eps ex sh kw := rfl

theorem terminatedItems_replicate (ep : SAEpisode α) :
    terminatedItems ep =
      if ep.length = 0 then []
      else
        List.replicate (ep.length - 1) (BatchItem.flag false) ++
          [BatchItem.flag ep.is_terminated] := by
  by_cases h : ep.length = 0
  · simp [terminatedItems, h]
  · simp [terminatedItems, h, Nat.pos_of_ne_zero h]

theorem truncatedItems_replicate (ep : SAEpisode α) :
    truncatedItems ep =
      if ep.length = 0 then []
      else
        List.replicate (ep.length - 1) (BatchItem.flag false) ++
          [BatchItem.flag ep.is_truncated] := by
  by_cases h : ep.length = 0
  · simp [truncatedItems, h]
  · simp [truncatedItems, h, Nat.pos_of_ne_zero h]

/-- C2: for every single-agent episode view of length T, the run appended
by this call to the freshly assembled terminateds (resp. truncateds)
column is False repeated T-1 times followed by the episode's terminal
flag, and is empty when T = 0; the whole column is the concatenation of
these runs in episode order. -/
theorem C2_terminal_flags {α ρ σ κ : Type} (rl : ρ) (b : Batch α) (eps : List (SAEpisode α))
    (ex : Option Bool) (sh : Option σ) (kw : κ) (hwf : ∀ ep ∈ eps, WF ep)
    (hT : hasCol b Columns.TERMINATEDS = false) (hTr : hasCol b Columns.TRUNCATEDS = false) :
    colOf (call rl (some b) eps ex sh kw) Columns.TERMINATEDS =
      appendCol none ((eps.map (fun ep =>
        if ep.length = 0 then []
        else
          List.replicate (ep.length - 1) (BatchItem.flag false) ++
            [BatchItem.flag ep.is_terminated])).flatten) ∧
    colOf (call rl (some b) eps ex sh kw) Columns.TRUNCATEDS =
      appendCol none ((eps.map (fun ep =>
        if ep.length = 0 then []
        else
          List.replicate (ep.length - 1) (BatchItem.flag false) ++
            [BatchItem.flag ep.is_truncated])).flatten) := by
  have hmapT : eps.map (fun ep =>
      if ep.length = 0 then []
      else
        List.replicate (ep.length - 1) (BatchItem.flag false) ++
          [BatchItem.flag ep.is_terminated]) = eps.map terminatedItems :=
    List.map_congr_left (fun ep _ => (terminatedItems_replicate ep).symm)
  have hmapTr : eps.map (fun ep =>
      if ep.length = 0 then []
      else
        List.replicate (ep.length - 1) (BatchItem.flag false) ++
          [BatchItem.flag ep.is_truncated]) = eps.map truncatedItems :=
    List.map_congr_left (fun ep _ => (truncatedItems_replicate ep).symm)
  rw [call_eq_of_wf hwf rl ex sh kw]
  constructor
  · rw [colOf_some, hmapT]
    exact main_fresh_col hwf (fun ep _ => length_terminatedItems ep)
      (alookup_mainResult_terminateds hT) (by decide) (by decide)
  · rw [colOf_some, hmapTr]
    exact main_fresh_col hwf (fun ep _ => length_truncatedItems ep)
      (alookup_mainResult_truncateds hTr) (by decide) (by decide)

/-- Witness for C2 at the spec's own example: lengths 3 and 2, first
episode terminated, second truncated; terminateds evaluates to
[F,F,T,F,F] and truncateds to [F,F,F,F,T]. -/
theorem C2_terminal_flags_witness :
    ((∀ ep ∈ [exEp1, exEp2], WF ep) ∧
      hasCol ([] : Batch Nat) Columns.TERMINATEDS = false ∧
      hasCol ([] : Batch Nat) Columns.TRUNCATEDS = false) ∧
    colOf (call (0 : Nat) (some ([] : Batch Nat)) [exEp1, exEp2] none (none : Option Nat) (0 : Nat))
        Columns.TERMINATEDS =
      some [BatchItem.flag false, BatchItem.flag false, BatchItem.flag true,
        BatchItem.flag false, BatchItem.flag false] ∧
    colOf (call (0 : Nat) (some ([] : Batch Nat)) [exEp1, exEp2] none (none : Option Nat) (0 : Nat))
        Columns.TRUNCATEDS =
      some [BatchItem.flag false, BatchItem.flag false, BatchItem.flag false,
        BatchItem.flag false, BatchItem.flag true] := by
  have h := C2_terminal_flags (0 : Nat) ([] : Batch Nat) [exEp1, exEp2] none (none : Option Nat)
    (0 : Nat) (by decide) (by decide) (by decide)
  refine ⟨⟨by decide, by decide, by decide⟩, ?_, ?_⟩
  · rw [h.1]
    decide
  · rw [h.2]
    decide

/-- C6: only episodes whose extra-model-outputs mapping declares a fresh
non-reserved column name contribute to that column, created lazily; a key
missing from some episodes causes no failure, and the column's length is
the summed length of the declaring episodes only. -/
theorem C6_dynamic_columns {α ρ σ κ : Type} (rl : ρ) (b : Batch α) (eps : List (SAEpisode α))
    (ex : Option Bool) (sh : Option σ) (kw : κ) (c : String) (hwf : ∀ ep ∈ eps, WF ep)
    (hfresh : hasCol b c = false) (hres : c ∉ reservedColumns) :
    (call rl (some b) eps ex sh kw).isSome = true ∧
    colOf (call rl (some b) eps ex sh kw) c = appendCol none (extraJoin eps c) ∧
    ((colOf (call rl (some b) eps ex sh kw) c).getD []).length =
      ((eps.filter (fun ep => declares ep c)).map SAEpisode.length).sum := by
  rw [call_eq_of_wf hwf rl ex sh kw]
  have hcol := extras_fresh_col hwf hfresh hres
  refine ⟨rfl, ?_, ?_⟩
  · rw [colOf_some]
    exact hcol
  · rw [colOf_some, hcol, getD_appendCol_none]
    exact extraJoin_length hwf

/-- Witness for C6: of two episodes only the first declares "logp"; the
resulting column holds exactly that episode's three values. -/
theorem C6_dynamic_columns_witness :
    ((∀ ep ∈ [exEp1, exEp2], WF ep) ∧
      hasCol ([] : Batch Nat) "logp" = false ∧ "logp" ∉ reservedColumns) ∧
    ((call (0 : Nat) (some ([] : Batch Nat)) [exEp1, exEp2] none (none : Option Nat) (0 : Nat)).isSome = true ∧
      colOf (call (0 : Nat) (some ([] : Batch Nat)) [exEp1, exEp2] none (none : Option Nat) (0 : Nat))
          "logp" =
        appendCol none (extraJoin [exEp1, exEp2] "logp") ∧
      ((colOf (call (0 : Nat) (some ([] : Batch Nat)) [exEp1, exEp2] none (none : Option Nat) (0 : Nat))
          "logp").getD []).length =
        (([exEp1, exEp2].filter (fun ep => declares ep "logp")).map SAEpisode.length).sum) ∧
    colOf (call (0 : Nat) (some ([] : Batch Nat)) [exEp1, exEp2] none (none : Option Nat) (0 : Nat))
        "logp" =
      some [BatchItem.v 5, BatchItem.v 6, BatchItem.v 7] :=
  ⟨⟨by decide, by decide, by decide⟩,
    C6_dynamic_columns (0 : Nat) ([] : Batch Nat) [exEp1, exEp2] none (none : Option Nat)
      (0 : Nat) "logp" (by decide) (by decide) (by decide),
    by decide⟩

/-- C7: an episode view of length zero contributes nothing at all: removing
it from the collection leaves the call's result unchanged, with no failure
and no accessor dependence on that episode's contents. -/
theorem C7_empty_episode {α ρ σ κ : Type} (rl : ρ) (batch : Option (Batch α))
    (es1 es2 : List (SAEpisode α)) (ep : SAEpisode α) (ex : Option Bool) (sh : Option σ)
    (kw : κ) (h0 : ep.length = 0) :
    call rl batch (es1 ++ ep :: es2) ex sh kw = call rl batch (es1 ++ es2) ex sh kw := by
  cases batch with
  | none => rfl
  | some b =>
    have e1 : call rl (some b) (es1 ++ ep :: es2) ex sh kw =
        (addMainColumns b (es1 ++ ep :: es2)).bind
          (fun b4 => addExtraPhase b4 (es1 ++ ep :: es2)) := rfl
    have e2 : call rl (some b) (es1 ++ es2) ex sh kw =
        (addMainColumns b (es1 ++ es2)).bind (fun b4 => addExtraPhase b4 (es1 ++ es2)) := rfl
    rw [e1, e2, addMainColumns_middle_id h0]
    refine congrArg _ (funext fun b4 => ?_)
    exact addExtraPhase_middle_id h0 b4 es1 es2

/-- Witness for C7: a concrete zero-length episode (with terminal flags set
and a declared extra key) is dropped without changing the result. -/
theorem C7_empty_episode_witness :
    exEp0.length = 0 ∧
    call (0 : Nat) (some ([] : Batch Nat)) ([exEp1] ++ exEp0 :: [exEp2]) none (none : Option Nat)
        (0 : Nat) =
      call (0 : Nat) (some ([] : Batch Nat)) ([exEp1] ++ [exEp2]) none (none : Option Nat)
        (0 : Nat) :=
  ⟨rfl,
    C7_empty_episode (0 : Nat) (some ([] : Batch Nat)) [exEp1] [exEp2] exEp0 none
      (none : Option Nat) (0 : Nat) rfl⟩

/-- C1 counterexample: on a concrete input the call populates both the
actions column (5 items, from both episodes) and the extra-output column
"logp" (3 items, from the single declaring episode) in the same call, so
not all columns populated by one call have equal total item count. -/
theorem C1_counterexample :
    (colOf (call (0 : Nat) (some ([] : Batch Nat)) [exEp1, exEp2] none (none : Option Nat) (0 : Nat))
        Columns.ACTIONS).isSome = true ∧
    (colOf (call (0 : Nat) (some ([] : Batch Nat)) [exEp1, exEp2] none (none : Option Nat) (0 : Nat))
        "logp").isSome = true ∧
    ((colOf (call (0 : Nat) (some ([] : Batch Nat)) [exEp1, exEp2] none (none : Option Nat) (0 : Nat))
        Columns.ACTIONS).getD []).length = 5 ∧
    ((colOf (call (0 : Nat) (some ([] : Batch Nat)) [exEp1, exEp2] none (none : Option Nat) (0 : Nat))
        "logp").getD []).length = 3 ∧
    ¬ (((colOf (call (0 : Nat) (some ([] : Batch Nat)) [exEp1, exEp2] none (none : Option Nat) (0 : Nat))
        Columns.ACTIONS).getD []).length =
      ((colOf (call (0 : Nat) (some ([] : Batch Nat)) [exEp1, exEp2] none (none : Option Nat) (0 : Nat))
        "logp").getD []).length) := by
  decide

/-- C1 (amended): every freshly assembled column is the concatenation, in
episode iteration order, of the per-episode item runs of the episodes that
contribute to it, so its total item count is the summed length of those
episodes; the four base columns draw on every episode (count = total
length), while an extra-output column draws only on declaring episodes and
may therefore have a smaller count. -/
theorem C1_fresh_columns {α ρ σ κ : Type} (rl : ρ) (b : Batch α) (eps : List (SAEpisode α))
    (ex : Option Bool) (sh : Option σ) (kw : κ) (hwf : ∀ ep ∈ eps, WF ep) :
    (call rl (some b) eps ex sh kw).isSome = true ∧
    (hasCol b Columns.ACTIONS = false →
      colOf (call rl (some b) eps ex sh kw) Columns.ACTIONS =
        appendCol none ((eps.map actionVals).flatten) ∧
      ((colOf (call rl (some b) eps ex sh kw) Columns.ACTIONS).getD []).length =
        (eps.map SAEpisode.length).sum) ∧
    (hasCol b Columns.REWARDS = false →
      colOf (call rl (some b) eps ex sh kw) Columns.REWARDS =
        appendCol none ((eps.map rewardVals).flatten) ∧
      ((colOf (call rl (some b) eps ex sh kw) Columns.REWARDS).getD []).length =
        (eps.map SAEpisode.length).sum) ∧
    (hasCol b Columns.TERMINATEDS = false →
      colOf (call rl (some b) eps ex sh kw) Columns.TERMINATEDS =
        appendCol none ((eps.map terminatedItems).flatten) ∧
      ((colOf (call rl (some b) eps ex sh kw) Columns.TERMINATEDS).getD []).length =
        (eps.map SAEpisode.length).sum) ∧
    (hasCol b Columns.TRUNCATEDS = false →
      colOf (call rl (some b) eps ex sh kw) Columns.TRUNCATEDS =
        appendCol none ((eps.map truncatedItems).flatten) ∧
      ((colOf (call rl (some b) eps ex sh kw) Columns.TRUNCATEDS).getD []).length =
        (eps.map SAEpisode.length).sum) ∧
    (∀ c : String, hasCol b c = false → c ∉ reservedColumns →
      colOf (call rl (some b) eps ex sh kw) c = appendCol none (extraJoin eps c) ∧
      ((colOf (call rl (some b) eps ex sh kw) c).getD []).length =
        ((eps.filter (fun ep => declares ep c)).map SAEpisode.length).sum) := by
  rw [call_eq_of_wf hwf rl ex sh kw]
  refine ⟨rfl, ?_, ?_, ?_, ?_, ?_⟩
  · intro h
    have hlen : ∀ ep ∈ eps, (actionVals ep).length = ep.length :=
      fun ep hm => length_actionVals (hwf ep hm)
    have hc := main_fresh_col hwf hlen (alookup_mainResult_actions h) (by decide) (by decide)
    refine ⟨by rw [colOf_some]; exact hc, ?_⟩
    rw [colOf_some, hc, getD_appendCol_none]
    exact flatten_length_eq_sum hlen
  · intro h
    have hlen : ∀ ep ∈ eps, (rewardVals ep).length = ep.length :=
      fun ep hm => length_rewardVals (hwf ep hm)
    have hc := main_fresh_col hwf hlen (alookup_mainResult_rewards h) (by decide) (by decide)
    refine ⟨by rw [colOf_some]; exact hc, ?_⟩
    rw [colOf_some, hc, getD_appendCol_none]
    exact flatten_length_eq_sum hlen
  · intro h
    have hlen : ∀ ep ∈ eps, (terminatedItems ep).length = ep.length :=
      fun ep _ => length_terminatedItems ep
    have hc := main_fresh_col hwf hlen (alookup_mainResult_terminateds h) (by decide) (by decide)
    refine ⟨by rw [colOf_some]; exact hc, ?_⟩
    rw [colOf_some, hc, getD_appendCol_none]
    exact flatten_length_eq_sum hlen
  · intro h
    have hlen : ∀ ep ∈ eps, (truncatedItems ep).length = ep.length :=
      fun ep _ => length_truncatedItems ep
    have hc := main_fresh_col hwf hlen (alookup_mainResult_truncateds h) (by decide) (by decide)
    refine ⟨by rw [colOf_some]; exact hc, ?_⟩
    rw [colOf_some, hc, getD_appendCol_none]
    exact flatten_length_eq_sum hlen
  · intro c h1 h2
    have hc := extras_fresh_col hwf h1 h2
    refine ⟨by rw [colOf_some]; exact hc, ?_⟩
    rw [colOf_some, hc, getD_appendCol_none]
    exact extraJoin_length hwf

/-- Witness for C1 (amended) at a concrete input. -/
theorem C1_fresh_columns_witness :
    (∀ ep ∈ [exEp1, exEp2], WF ep) ∧
    ((call (0 : Nat) (some ([] : Batch Nat)) [exEp1, exEp2] none (none : Option Nat) (0 : Nat)).isSome = true ∧
      (hasCol ([] : Batch Nat) Columns.ACTIONS = false →
        colOf (call (0 : Nat) (some ([] : Batch Nat)) [exEp1, exEp2] none (none : Option Nat) (0 : Nat))
            Columns.ACTIONS =
          appendCol none (([exEp1, exEp2].map actionVals).flatten) ∧
        ((colOf (call (0 : Nat) (some ([] : Batch Nat)) [exEp1, exEp2] none (none : Option Nat) (0 : Nat))
            Columns.ACTIONS).getD []).length =
          ([exEp1, exEp2].map SAEpisode.length).sum) ∧
      (hasCol ([] : Batch Nat) Columns.REWARDS = false →
        colOf (call (0 : Nat) (some ([] : Batch Nat)) [exEp1, exEp2] none (none : Option Nat) (0 : Nat))
            Columns.REWARDS =
          appendCol none (([exEp1, exEp2].map rewardVals).flatten) ∧
        ((colOf (call (0 : Nat) (some ([] : Batch Nat)) [exEp1, exEp2] none (none : Option Nat) (0 : Nat))
            Columns.REWARDS).getD []).length =
          ([exEp1, exEp2].map SAEpisode.length).sum) ∧
      (hasCol ([] : Batch Nat) Columns.TERMINATEDS = false →
        colOf (call (0 : Nat) (some ([] : Batch Nat)) [exEp1, exEp2] none (none : Option Nat) (0 : Nat))
            Columns.TERMINATEDS =
          appendCol none (([exEp1, exEp2].map terminatedItems).flatten) ∧
        ((colOf (call (0 : Nat) (some ([] : Batch Nat)) [exEp1, exEp2] none (none : Option Nat) (0 : Nat))
            Columns.TERMINATEDS).getD []).length =
          ([exEp1, exEp2].map SAEpisode.length).sum) ∧
      (hasCol ([] : Batch Nat) Columns.TRUNCATEDS = false →
        colOf (call (0 : Nat) (some ([] : Batch Nat)) [exEp1, exEp2] none (none : Option Nat) (0 : Nat))
            Columns.TRUNCATEDS =
          appendCol none (([exEp1, exEp2].map truncatedItems).flatten) ∧
        ((colOf (call (0 : Nat) (some ([] : Batch Nat)) [exEp1, exEp2] none (none : Option Nat) (0 : Nat))
            Columns.TRUNCATEDS).getD []).length =
          ([exEp1, exEp2].map SAEpisode.length).sum) ∧
      (∀ c : String, hasCol ([] : Batch Nat) c = false → c ∉ reservedColumns →
        colOf (call (0 : Nat) (some ([] : Batch Nat)) [exEp1, exEp2] none (none : Option Nat) (0 : Nat)) c =
          appendCol none (extraJoin [exEp1, exEp2] c) ∧
        ((colOf (call (0 : Nat) (some ([] : Batch Nat)) [exEp1, exEp2] none (none : Option Nat) (0 : Nat)) c).getD []).length =
          (([exEp1, exEp2].filter (fun ep => declares ep c)).map SAEpisode.length).sum)) :=
  ⟨by decide,
    C1_fresh_columns (0 : Nat) ([] : Batch Nat) [exEp1, exEp2] none (none : Option Nat) (0 : Nat)
      (by decide)⟩

/-- C4 counterexample: on a concrete input with an empty batch, the skip
set the extra-output pass uses does contain "actions" (the four own
columns were added before it was computed), so the episode's extra-output
key "actions" is skipped and the actions column keeps only the item the
actions block appended. -/
theorem C4_counterexample :
    hasCol ([] : Batch Nat) Columns.ACTIONS = false ∧
    (call_skip_columns ([] : Batch Nat) [exEpColl]).isSome = true ∧
    memStr ((call_skip_columns ([] : Batch Nat) [exEpColl]).getD []) Columns.ACTIONS = true ∧
    colOf (call (0 : Nat) (some ([] : Batch Nat)) [exEpColl] none (none : Option Nat) (0 : Nat))
        Columns.ACTIONS =
      some [BatchItem.v 3] := by
  decide

/-- C4 (amended): the skip set of the extra-output pass is computed once
from the batch's keys after the four own columns have been added in the
same call, united with the two reserved state names; hence an own-column
name absent from the input batch is in the skip set whenever some episode
view has positive length. -/
theorem C4_skip_set_after_main {α : Type} (b : Batch α) (eps : List (SAEpisode α)) (c : String)
    (hwf : ∀ ep ∈ eps, WF ep)
    (hc : c = Columns.ACTIONS ∨ c = Columns.REWARDS ∨ c = Columns.TERMINATEDS ∨
      c = Columns.TRUNCATEDS)
    (hfresh : hasCol b c = false) (hne : ∃ ep ∈ eps, 0 < ep.length) :
    call_skip_columns b eps = some (skipColumnsOf (mainResult b eps)) ∧
    memStr (skipColumnsOf (mainResult b eps)) c = true := by
  have h1 : call_skip_columns b eps = (addMainColumns b eps).map skipColumnsOf := rfl
  constructor
  · rw [h1, addMainColumns_of_wf hwf]
    rfl
  · apply memStr_skipColumnsOf.mpr
    left
    unfold hasCol
    rcases hc with rfl | rfl | rfl | rfl
    · rw [alookup_mainResult_actions hfresh,
        appendCol_none_of_ne_nil
          (flatten_ne_nil_of_pos (fun ep hm => length_actionVals (hwf ep hm)) hne)]
      rfl
    · rw [alookup_mainResult_rewards hfresh,
        appendCol_none_of_ne_nil
          (flatten_ne_nil_of_pos (fun ep hm => length_rewardVals (hwf ep hm)) hne)]
      rfl
    · rw [alookup_mainResult_terminateds hfresh,
        appendCol_none_of_ne_nil
          (flatten_ne_nil_of_pos (fun ep _ => length_terminatedItems ep) hne)]
      rfl
    · rw [alookup_mainResult_truncateds hfresh,
        appendCol_none_of_ne_nil
          (flatten_ne_nil_of_pos (fun ep _ => length_truncatedItems ep) hne)]
      rfl

/-- Witness for C4 (amended) at a concrete input. -/
theorem C4_skip_set_after_main_witness :
    ((∀ ep ∈ [exEpColl], WF ep) ∧
      (Columns.ACTIONS = Columns.ACTIONS ∨ Columns.ACTIONS = Columns.REWARDS ∨
        Columns.ACTIONS = Columns.TERMINATEDS ∨ Columns.ACTIONS = Columns.TRUNCATEDS) ∧
      hasCol ([] : Batch Nat) Columns.ACTIONS = false ∧
      (∃ ep ∈ [exEpColl], 0 < ep.length)) ∧
    (call_skip_columns ([] : Batch Nat) [exEpColl] =
        some (skipColumnsOf (mainResult ([] : Batch Nat) [exEpColl])) ∧
      memStr (skipColumnsOf (mainResult ([] : Batch Nat) [exEpColl])) Columns.ACTIONS = true) :=
  ⟨⟨by decide, Or.inl rfl, by decide, ⟨exEpColl, by decide, by decide⟩⟩,
    C4_skip_set_after_main ([] : Batch Nat) [exEpColl] Columns.ACTIONS (by decide) (Or.inl rfl)
      (by decide) ⟨exEpColl, by decide, by decide⟩⟩
